import Mathlib

/-!
Verification of the event filtering, view-projection and export subsystem of a
browser calendar application for youth sports events.

The JavaScript source is shallowly embedded: JavaScript `Date` objects built
from `YYYY-MM-DD` strings are modelled as day counts since 1970-01-01 (the
parse yields UTC midnight); the host timezone is modelled as a fixed offset of
`o` minutes east of UTC, so the local-time field accessors (`getFullYear`,
`getMonth`, `getDate`) read the civil date of the local day
`(n * 1440 + o) / 1440`.  Civil-date/day-count conversions use Howard
Hinnant's proleptic-Gregorian algorithms.  Strings that can be `null` or
`undefined` in JavaScript are modelled as `Option String`; a JavaScript
`TypeError`/`RangeError` raised by the code is modelled as an `Except` error
or an `Option` `none` at the spot where the original code throws.
-/

/-- Proleptic-Gregorian leap-year rule, as used by the JavaScript `Date`. -/
def isLeapYear (y : Int) : Bool :=
  (y % 4 == 0 && y % 100 != 0) || (y % 400 == 0)

/-- Number of days in a month of the proleptic Gregorian calendar. -/
def daysInMonth (y m : Int) : Int :=
  if m = 2 then (if isLeapYear y then 29 else 28)
  else if m = 4 ∨ m = 6 ∨ m = 9 ∨ m = 11 then 30 else 31

/-- Calendar date: year, month (1-12), day (1-31). -/
structure CivilDate where
  year : Int
  month : Int
  day : Int
deriving DecidableEq, Repr

/-- Predicate stating that month and day of a civil date are in range. -/
def ValidCivilDate (t : CivilDate) : Prop :=
  1 ≤ t.month ∧ t.month ≤ 12 ∧ 1 ≤ t.day ∧ t.day ≤ daysInMonth t.year t.month

instance (t : CivilDate) : Decidable (ValidCivilDate t) := by
  unfold ValidCivilDate; exact inferInstance

/-- Days since 1970-01-01 of a civil date (Hinnant's days-from-civil). -/
def daysFromCivil (t : CivilDate) : Int :=
  let yAdj := if t.month ≤ 2 then t.year - 1 else t.year
  let era := yAdj / 400
  let yoe := yAdj - era * 400
  let mp := (t.month + 9) % 12
  let doy := (153 * mp + 2) / 5 + t.day - 1
  let doe := yoe * 365 + yoe / 4 - yoe / 100 + doy
  era * 146097 + doe - 719468

/-- Civil date of a day inside one 400-year era (0 ≤ doe < 146097). -/
def civilOfEraDoe (era doe : Int) : CivilDate :=
  let yoe := (doe - doe / 1460 + doe / 36524 - doe / 146096) / 365
  let y := yoe + era * 400
  let doy := doe - (365 * yoe + yoe / 4 - yoe / 100)
  let mp := (5 * doy + 2) / 153
  let d := doy - (153 * mp + 2) / 5 + 1
  let m := if mp < 10 then mp + 3 else mp - 9
  ⟨if m ≤ 2 then y + 1 else y, m, d⟩

/-- Civil date of a day count since 1970-01-01 (Hinnant's civil-from-days). -/
def civilFromDays (z : Int) : CivilDate :=
  civilOfEraDoe ((z + 719468) / 146097) ((z + 719468) % 146097)

/-- Calendar day immediately before a civil date. -/
def predCivil (t : CivilDate) : CivilDate :=
  if 1 < t.day then ⟨t.year, t.month, t.day - 1⟩
  else if 1 < t.month then ⟨t.year, t.month - 1, daysInMonth t.year (t.month - 1)⟩
  else ⟨t.year - 1, 12, 31⟩

/-- Model of the JavaScript ASCII case fold used by `toLowerCase`. -/
def jsToLower (s : String) : String :=
  String.mk (s.toList.map Char.toLower)

/-- JavaScript relational `<` on strings: lexicographic comparison of the
code units.  (All strings in this development are ASCII, where code-unit
order and code-point order agree.) -/
def charListLt : List Char → List Char → Bool
  | [], [] => false
  | [], _ :: _ => true
  | _ :: _, [] => false
  | a :: as, b :: bs => if a < b then true else if b < a then false else charListLt as bs

/-- JavaScript `x < y` for strings. -/
def jsStrLt (x y : String) : Bool :=
  charListLt x.toList y.toList

/-- Model of `String.prototype.localeCompare` under the default collator:
case-insensitive primary comparison (compare the case-folded strings),
with the raw code-unit order used only to break ties. -/
def jsLocaleCompare (x y : String) : Int :=
  if jsStrLt (jsToLower x) (jsToLower y) then -1
  else if jsStrLt (jsToLower y) (jsToLower x) then 1
  else if jsStrLt x y then -1
  else if jsStrLt y x then 1
  else 0

/-- Numeric value of a decimal digit character. -/
def digitVal (c : Char) : Option Int :=
  if c.isDigit then some ((c.toNat : Int) - 48) else none

/-- Shape-level parse of a `YYYY-MM-DD` string: four digits, dash, two
digits, dash, two digits, without the range check. -/
def rawParseISODate (s : String) : Option CivilDate :=
  match s.toList with
  | [y1, y2, y3, y4, c1, m1, m2, c2, d1, d2] =>
    if c1 = '-' then
      if c2 = '-' then
        match digitVal y1, digitVal y2, digitVal y3, digitVal y4,
            digitVal m1, digitVal m2, digitVal d1, digitVal d2 with
        | some a, some b, some c, some d, some e, some f, some g, some h =>
          some ⟨1000 * a + 100 * b + 10 * c + d, 10 * e + f, 10 * g + h⟩
        | _, _, _, _, _, _, _, _ => none
      else none
    else none
  | _ => none

/-- Model of parsing a `YYYY-MM-DD` string the way `new Date(s)` and
date-fns `parseISO` do for date-only inputs: a calendar date when the string
is well formed and in range, `none` (an Invalid Date) otherwise. -/
def parseISODate (s : String) : Option CivilDate :=
  match rawParseISODate s with
  | some t => if ValidCivilDate t then some t else none
  | none => none

/-- Day number denoted by a stored `YYYY-MM-DD` string; `none` models a
JavaScript Invalid Date (whose numeric value is NaN). -/
def jsDateNum (s : String) : Option Int :=
  (parseISODate s).map daysFromCivil

/-- Decide whether the character list `s` starts with `pat`. -/
def charsStartWith : List Char → List Char → Bool
  | _, [] => true
  | [], _ :: _ => false
  | a :: as, b :: bs => a == b && charsStartWith as bs

/-- Decide whether `pat` occurs as a contiguous sublist of `s`. -/
def charsIncludes : List Char → List Char → Bool
  | [], pat => pat.isEmpty
  | a :: rest, pat => charsStartWith (a :: rest) pat || charsIncludes rest pat

/-- Model of `String.prototype.includes`. -/
def strIncludes (s pat : String) : Bool :=
  charsIncludes s.toList pat.toList

/-- JavaScript `String.prototype.trim`: strip whitespace from both ends. -/
def jsTrim (s : String) : String :=
  String.mk (((s.toList.dropWhile Char.isWhitespace).reverse.dropWhile
    Char.isWhitespace).reverse)

/-- JavaScript `String.prototype.startsWith`. -/
def strStartsWith (s pat : String) : Bool :=
  charsStartWith s.toList pat.toList

/-- JavaScript dash-stripping `replace` with the global regex: delete every dash. -/
def stripDashes (s : String) : String :=
  String.mk (s.toList.filter (fun c => c ≠ '-'))

/-- Event record as consumed by the application.  Fields that the backing
store may deliver as `null` are `Option String`; `name`, `id` and
`start_date` are always present. -/
structure Event where
  id : String
  name : String
  sport : Option String
  location : Option String
  age : Option String
  gender : Option String
  event_type : Option String
  website : Option String
  start_date : String
  end_date : Option String
deriving DecidableEq, Repr

/-- Model of the JavaScript `value || dflt` idiom on a nullable string:
the default replaces `null`, `undefined` and the empty string. -/
def jsOrDefault (v : Option String) (dflt : String) : String :=
  match v with
  | none => dflt
  | some s => if s = "" then dflt else s

/-! Month view: `DayCell` (src/components/DayCell.js, revision in
src/unnamed/part_002).  `dayEvents` filters the events whose parsed
`start_date` is the same local day as the cell's day; when more than two
events remain they are sorted by `a.name.toLowerCase().localeCompare(b.name.toLowerCase())`
before the two displayed tiles are sliced off. -/

/-- Decide whether an event's `start_date` parses to the given local day
(`isSameDay(parseISO(event.start_date), day)`); an Invalid Date matches no day. -/
def eventStartsOnDay (e : Event) (day : Int) : Bool :=
  match parseISODate e.start_date with
  | some t => daysFromCivil t == day
  | none => false

/-- Day-cell filter `events.filter(event => isSameDay(parseISO(event.start_date), day))`. -/
def dayCellEvents (events : List Event) (day : Int) : List Event :=
  events.filter (fun e => eventStartsOnDay e day)

/-- Comparator used by the month-view sort: `localeCompare` on the
lower-cased names, as the less-or-equal relation driving the stable sort. -/
def dayCellRel (a b : Event) : Prop :=
  jsLocaleCompare (jsToLower a.name) (jsToLower b.name) ≤ 0

instance (a b : Event) : Decidable (dayCellRel a b) := by
  unfold dayCellRel; exact inferInstance

/-- The `sortedDayEvents` value of `DayCell`: sort the day's events (stably,
as `Array.prototype.sort` does) only when more than 2 of them exist,
otherwise keep the filtered order. -/
def sortedDayEvents (events : List Event) (day : Int) : List Event :=
  let dayEvents := dayCellEvents events day
  if 2 < dayEvents.length then List.insertionSort dayCellRel dayEvents else dayEvents

/-- Render-ready content of one day cell: the displayed tiles and the
overflow indicator (`+N more`). -/
structure DayCellView where
  displayed : List Event
  overflow : Option Int
deriving DecidableEq, Repr

/-- Month-view day cell: displays `sortedDayEvents.slice(0, 2)` and shows
`+(length - 2) more` exactly when the length exceeds 2. -/
def dayCell (events : List Event) (day : Int) : DayCellView :=
  let s := sortedDayEvents events day
  ⟨s.take 2, if 2 < s.length then some ((s.length : Int) - 2) else none⟩

/-! Week view (src/components/CalendarGrid.js, src/unnamed/part_003).
`getEventsForDate` filters by day and always sorts with
`a.name.localeCompare(b.name)`; `renderWeekView` walks the 7 days from
`startOfWeek(currentDate)` and slices each day's list to 2 tiles. -/

/-- Comparator of `getEventsForDate`: `localeCompare` on the raw names. -/
def weekRel (a b : Event) : Prop :=
  jsLocaleCompare a.name b.name ≤ 0

instance (a b : Event) : Decidable (weekRel a b) := by
  unfold weekRel; exact inferInstance

/-- CalendarGrid's `getEventsForDate`: filter to the given day, then sort by
name (stable). -/
def getEventsForDate (events : List Event) (day : Int) : List Event :=
  List.insertionSort weekRel (events.filter (fun e => eventStartsOnDay e day))

/-- Model of date-fns `startOfWeek` with the default week start (Sunday):
the Sunday on or before the given day.  Day 0 (1970-01-01) was a Thursday,
so `(day + 4) % 7` is the 0-Sunday-based weekday. -/
def startOfWeek (day : Int) : Int :=
  day - (day + 4) % 7

/-- Render-ready content of one week-view column. -/
structure WeekDayColumn where
  day : Int
  displayed : List Event
  overflow : Option Int
deriving DecidableEq, Repr

/-- The seven week-view columns produced by `renderWeekView`. -/
def renderWeekView (events : List Event) (anchor : Int) : List WeekDayColumn :=
  (List.range 7).map (fun (i : Nat) =>
    let day := startOfWeek anchor + (i : Int)
    let dayEvents := getEventsForDate events day
    ⟨day, dayEvents.take 2,
      if 2 < dayEvents.length then some ((dayEvents.length : Int) - 2) else none⟩)

/-! List view sorting (src/components/ListView.js).  The comparator reads
`a.<field>.toLowerCase()` for the text fields; only `event_type` is guarded
with `(a.event_type || '')`, so a missing field of any other kind raises a
TypeError, modelled as an `Except.error`. -/

/-- Sort fields selectable in the list view. -/
inductive SortField
  | startDateTime
  | name
  | sport
  | location
  | age
  | gender
  | eventType
deriving DecidableEq, Repr

/-- JavaScript three-way comparison of two strings under a sort direction
(`asc = true`): mirrors `if (aValue < bValue) ... if (aValue > bValue) ...`. -/
def jsCompareStr (x y : String) (asc : Bool) : Int :=
  if jsStrLt x y then (if asc then -1 else 1)
  else if jsStrLt y x then (if asc then 1 else -1)
  else 0

/-- JavaScript three-way comparison of two `Date` values: when either is an
Invalid Date both `<` and `>` are false (NaN), so the comparator returns 0. -/
def jsCompareDate (x y : Option Int) (asc : Bool) : Int :=
  match x, y with
  | some a, some b =>
    if a < b then (if asc then -1 else 1)
    else if b < a then (if asc then 1 else -1)
    else 0
  | _, _ => 0

/-- The `sortedEvents` comparator of ListView.  Reading `toLowerCase` of a
missing (`null`) field throws, which the model signals as `Except.error ()`. -/
def compareEvents (f : SortField) (asc : Bool) (a b : Event) : Except Unit Int :=
  match f with
  | .startDateTime =>
    Except.ok (jsCompareDate (jsDateNum a.start_date) (jsDateNum b.start_date) asc)
  | .name => Except.ok (jsCompareStr (jsToLower a.name) (jsToLower b.name) asc)
  | .sport =>
    match a.sport, b.sport with
    | some x, some y => Except.ok (jsCompareStr (jsToLower x) (jsToLower y) asc)
    | _, _ => Except.error ()
  | .location =>
    match a.location, b.location with
    | some x, some y => Except.ok (jsCompareStr (jsToLower x) (jsToLower y) asc)
    | _, _ => Except.error ()
  | .age =>
    match a.age, b.age with
    | some x, some y => Except.ok (jsCompareStr (jsToLower x) (jsToLower y) asc)
    | _, _ => Except.error ()
  | .gender =>
    match a.gender, b.gender with
    | some x, some y => Except.ok (jsCompareStr (jsToLower x) (jsToLower y) asc)
    | _, _ => Except.error ()
  | .eventType =>
    Except.ok (jsCompareStr (jsToLower (a.event_type.getD ""))
      (jsToLower (b.event_type.getD "")) asc)

/-- Stable insertion of an element into an already sorted list, propagating a
comparator exception the way `Array.prototype.sort` propagates a throwing
comparator. -/
def insertSortedM (cmp : Event → Event → Except Unit Int) (x : Event) :
    List Event → Except Unit (List Event)
  | [] => Except.ok [x]
  | y :: ys => do
    let c ← cmp x y
    if c ≤ 0 then
      return x :: y :: ys
    else do
      let zs ← insertSortedM cmp x ys
      return y :: zs

/-- Stable sort in the exception monad, modelling `[...events].sort(cmp)`. -/
def sortEventsM (cmp : Event → Event → Except Unit Int) :
    List Event → Except Unit (List Event)
  | [] => Except.ok []
  | x :: xs => do
    let rest ← sortEventsM cmp xs
    insertSortedM cmp x rest

/-- ListView's `sortedEvents` for a chosen field and direction. -/
def sortedEvents (events : List Event) (f : SortField) (asc : Bool) :
    Except Unit (List Event) :=
  sortEventsM (compareEvents f asc) events

/-! Filter engine (src/App.js `applyFilters`). -/

/-- Date-range bounds chosen in the filter bar; the picker always produces
valid dates, modelled as day numbers.  `stop` is the JavaScript `end` field. -/
structure DateRange where
  start : Option Int
  stop : Option Int
deriving DecidableEq, Repr

/-- The filter criteria held in App state. -/
structure Filters where
  sport : String
  location : String
  age : String
  gender : String
  eventType : String
  dateRange : DateRange
deriving DecidableEq, Repr

/-- JavaScript `<` between an event date and a set bound: false when the
event date is an Invalid Date (NaN) or the bound is not set. -/
def jsDateLtBound (d bound : Option Int) : Bool :=
  match d, bound with
  | some a, some b => decide (a < b)
  | _, _ => false

/-- JavaScript `>` between an event date and a set bound, as above. -/
def jsDateGtBound (d bound : Option Int) : Bool :=
  match d, bound with
  | some a, some b => decide (b < a)
  | _, _ => false

/-- The date-range block of `applyFilters`: when a bound is set, exclude the
event only if its parsed date compares against the bound; a malformed date
yields NaN, every comparison is false, and the event passes. -/
def passesDateRange (r : DateRange) (e : Event) : Bool :=
  if r.start.isSome || r.stop.isSome then
    let eventDate := jsDateNum e.start_date
    !(jsDateLtBound eventDate r.start) && !(jsDateGtBound eventDate r.stop)
  else true

/-- The search and per-field checks of `applyFilters` (everything before the
date-range block). -/
def passesTextFilters (searchQuery : String) (filters : Filters) (e : Event) : Bool :=
  let eventName := e.name
  let eventLocation := e.location.getD ""
  (if searchQuery ≠ "" then
    let query := jsToLower searchQuery
    strIncludes (jsToLower eventName) query ||
      strIncludes (jsToLower eventLocation) query ||
      strIncludes (jsToLower (e.sport.getD "")) query
   else true) &&
  (filters.sport == "" || e.sport == some filters.sport) &&
  (filters.location == "" ||
    strIncludes (jsToLower eventLocation) (jsToLower filters.location)) &&
  (filters.age == "" || e.age == some filters.age) &&
  (filters.gender == "" || e.gender == some filters.gender) &&
  (filters.eventType == "" || e.event_type == some filters.eventType)

/-- App.js `applyFilters`, as a pure function from the raw collection and the
criteria to the visible set. -/
def filterEvents (events : List Event) (searchQuery : String) (filters : Filters) :
    List Event :=
  events.filter (fun e =>
    passesTextFilters searchQuery filters e && passesDateRange filters.dateRange e)

/-! Display normalization (src/utils/displayHelpers.js `getDisplayValue`). -/

/-- The placeholder spellings treated as empty by `getDisplayValue`. -/
def emptyValues : List String :=
  ["null", "undefined", "none", "n/a", "na", "not available"]

/-- displayHelpers `getDisplayValue`: `null`/`undefined`/`''` and trimmed
placeholder spellings map to the caller-supplied default, everything else to
the trimmed string. -/
def getDisplayValue (value : Option String) (defaultValue : String) : String :=
  match value with
  | none => defaultValue
  | some v =>
    if v = "" then defaultValue
    else
      let stringValue := jsTrim v
      if emptyValues.contains (jsToLower stringValue) then defaultValue
      else stringValue

/-! Date formatter (src/utils/timezone.js `formatEventDateDisplay`).  The
application always passes the user's own timezone (`getUserTimezone()`), so
the date parsed at host-local midnight renders in that same zone as exactly
the civil date written in the string; the formatter is therefore modelled on
the civil dates themselves. -/

/-- English weekday names, index 0 = Sunday. -/
def weekdayFullNames : List String :=
  ["Sunday", "Monday", "Tuesday", "Wednesday", "Thursday", "Friday", "Saturday"]

/-- Abbreviated weekday names, index 0 = Sunday. -/
def weekdayAbbrNames : List String :=
  ["Sun", "Mon", "Tue", "Wed", "Thu", "Fri", "Sat"]

/-- Abbreviated month names, index 0 = January. -/
def monthAbbrNames : List String :=
  ["Jan", "Feb", "Mar", "Apr", "May", "Jun", "Jul", "Aug", "Sep", "Oct", "Nov", "Dec"]

/-- Weekday of a civil date, 0 = Sunday (1970-01-01 was a Thursday). -/
def weekdayIndex (t : CivilDate) : Nat :=
  ((daysFromCivil t + 4) % 7).toNat

/-- Decimal rendering of a nonnegative integer. -/
def decStr (n : Int) : String :=
  toString n.toNat

/-- date-fns pattern `EEEE, MMM d, yyyy`. -/
def fmtFullDate (t : CivilDate) : String :=
  weekdayFullNames.getD (weekdayIndex t) "" ++ ", " ++
    monthAbbrNames.getD (t.month - 1).toNat "" ++ " " ++ decStr t.day ++ ", " ++ decStr t.year

/-- date-fns pattern `EEE, MMM d`. -/
def fmtAbbrDayMonth (t : CivilDate) : String :=
  weekdayAbbrNames.getD (weekdayIndex t) "" ++ ", " ++
    monthAbbrNames.getD (t.month - 1).toNat "" ++ " " ++ decStr t.day

/-- date-fns pattern `EEE, MMM d, yyyy`. -/
def fmtAbbrFull (t : CivilDate) : String :=
  fmtAbbrDayMonth t ++ ", " ++ decStr t.year

/-- timezone.js `formatEventDateDisplay`.  A malformed date reaches a
date-fns `format` call, which throws a RangeError on an Invalid Date; the
surrounding catch returns the raw `startDate` argument.  A null, undefined or
empty `endDate` is falsy and selects the single-date branch. -/
def formatEventDateDisplay (startDate : String) (endDate : Option String) : String :=
  match parseISODate startDate with
  | none => startDate
  | some st =>
    match endDate with
    | none => fmtFullDate st
    | some es =>
      if es = "" then fmtFullDate st
      else
        match parseISODate es with
        | none => startDate
        | some et =>
          if st = et then fmtFullDate st
          else fmtAbbrDayMonth st ++ " – " ++ fmtAbbrFull et

/-! Website validation (src/utils/websiteValidation.js).  The WHATWG `URL`
constructor is modelled for absolute URLs: a scheme, then for http/https an
authority (host, with userinfo and port stripped) and a path defaulting to
`/`; any other scheme keeps an opaque path and an empty hostname.  A parse
failure models the constructor throwing. -/

/-- Structure holding the `URL` object fields the validator reads. -/
structure ParsedURL where
  protocol : String
  hostname : String
  pathname : String
deriving DecidableEq, Repr

/-- Decide whether a character may appear in a URL scheme after the first. -/
def isSchemeChar (c : Char) : Bool :=
  c.isAlphanum || c == '+' || c == '-' || c == '.'

/-- Split the leading `scheme:` off a character list. -/
def schemeSplit : List Char → List Char → Option (List Char × List Char)
  | _, [] => none
  | acc, c :: rest =>
    if c = ':' then some (acc.reverse, rest)
    else if isSchemeChar c then schemeSplit (c :: acc) rest
    else none

/-- Take characters until one of the delimiters (which is not consumed). -/
def takeUntilDelims (delims : List Char) : List Char → List Char × List Char
  | [] => ([], [])
  | c :: rest =>
    if delims.contains c then ([], c :: rest)
    else
      let r := takeUntilDelims delims rest
      (c :: r.1, r.2)

/-- Drop the slashes following `scheme:` of a special-scheme URL. -/
def dropSlashes : List Char → List Char
  | '/' :: rest => dropSlashes rest
  | cs => cs

/-- Hostname of an authority component: the part after the last `@`,
cut before the first `:` (the port). -/
def hostOfAuthority (auth : List Char) : List Char :=
  let afterUser := ((auth.reverse.splitOn '@').headD []).reverse
  (takeUntilDelims [':'] afterUser).1

/-- Model of `new URL(url)` restricted to absolute URLs. -/
def parseURL (s : String) : Option ParsedURL :=
  match schemeSplit [] s.toList with
  | none => none
  | some (sch, rest) =>
    match sch with
    | [] => none
    | c0 :: _ =>
      if ¬ c0.isAlpha then none
      else
        let scheme := jsToLower (String.mk sch)
        if scheme = "http" ∨ scheme = "https" then
          let afterSlashes := dropSlashes rest
          let split1 := takeUntilDelims ['/', '?', '#'] afterSlashes
          let host := hostOfAuthority split1.1
          if host.isEmpty then none
          else
            let path := (takeUntilDelims ['?', '#'] split1.2).1
            some ⟨scheme ++ ":", jsToLower (String.mk host),
              if path.isEmpty then "/" else String.mk path⟩
        else
          some ⟨scheme ++ ":", "", String.mk (takeUntilDelims ['?', '#'] rest).1⟩

/-- Placeholder spellings rejected by the website validator. -/
def placeholderValues : List String :=
  ["n/a", "na", "not available", "none", "null", "undefined"]

/-- The regex tests applied to the raw (trimmed) URL text: root path,
hash-only, query-only, javascript:, mailto: and tel: links. -/
def matchesInternalPattern (u : String) : Bool :=
  u == "/" || strStartsWith u "/#" || strStartsWith u "/?" ||
    strStartsWith u "javascript:" || strStartsWith u "mailto:" || strStartsWith u "tel:"

/-- websiteValidation.js `isValidExternalWebsite`. -/
def isValidExternalWebsite (url : String) : Bool :=
  if url = "" then false
  else
    let u := jsTrim url
    if u = "" then false
    else if placeholderValues.contains (jsToLower u) then false
    else
      match parseURL u with
      | none => false
      | some p =>
        if ¬ (p.protocol = "http:" ∨ p.protocol = "https:") then false
        else if p.hostname = "" then false
        else if p.hostname = "localhost" ∨ p.hostname = "127.0.0.1" ∨
            strIncludes p.hostname "localhost" ∨ p.pathname = "/" ∨ p.pathname = ""
          then false
        else if matchesInternalPattern u then false
        else true

/-! Calendar export engine (src/utils/export.js).  The host timezone is a
fixed offset `o` in minutes east of UTC, `-1440 < o < 1440`. -/

/-- Model of `new Date(x)` on a nullable stored date string: `null` coerces
to the epoch (day 0); a malformed string yields an Invalid Date (`none`). -/
def jsDateOfNullable (v : Option String) : Option Int :=
  match v with
  | none => some 0
  | some s => jsDateNum s

/-- Local calendar day of a Date holding UTC midnight of day `n`, read with
host offset `o` minutes. -/
def jsLocalDay (n o : Int) : Int :=
  (n * 1440 + o) / 1440

/-- Model of `d.setDate(d.getDate() + 1)` at the level of local days:
the local day-of-month field is set to its value plus one, normalizing
through the month, while the local time of day is unchanged. -/
def jsNextLocalDay (ld : Int) : Int :=
  let c := civilFromDays ld
  daysFromCivil ⟨c.year, c.month, 1⟩ + c.day

/-- The UTC calendar day printed by `toISOString().substr(0, 10)` for the
Date obtained from UTC midnight of day `n` by `setDate(getDate() + 1)`
under host offset `o`: time of day is preserved, so this is the UTC day of
the shifted instant. -/
def jsIsoDayAfterSetDate (n o : Int) : Int :=
  let t := n * 1440
  let ld := (t + o) / 1440
  let lmin := (t + o) % 1440
  ((jsNextLocalDay ld * 1440 + lmin) - o) / 1440

/-- Render a nonnegative integer padded to two digits. -/
def pad2 (n : Int) : String :=
  if n < 10 then "0" ++ toString n.toNat else toString n.toNat

/-- Render a year as four digits (years in this data are 1000-9999). -/
def pad4 (n : Int) : String :=
  toString n.toNat

/-- A day number rendered as `YYYYMMDD`. -/
def yyyymmdd (z : Int) : String :=
  let c := civilFromDays z
  pad4 c.year ++ pad2 c.month ++ pad2 c.day

/-- The `dates` parameter value of the Google Calendar link:
`start_date` with dashes stripped, a slash, then the exclusive end day.
Returns `none` when `toISOString()` throws on an Invalid end date. -/
def googleDatesParam (ev : Event) (o : Int) : Option String :=
  let startStr := stripDashes ev.start_date
  match jsDateOfNullable ev.end_date with
  | none => none
  | some n => some (startStr ++ "/" ++ yyyymmdd (jsIsoDayAfterSetDate n o))

/-- The composed `details` text of the deep link (the JavaScript source
writes a literal backslash-n between the lines). -/
def googleDetails (ev : Event) : String :=
  "Sport: " ++ jsOrDefault ev.sport "N/A" ++ "\\nAge Group: " ++
    jsOrDefault ev.age "N/A" ++ "\\nGender: " ++ jsOrDefault ev.gender "N/A" ++
    "\\nEvent Type: " ++ jsOrDefault ev.event_type "N/A"

/-- The `URLSearchParams` pairs of `generateGoogleCalendarUrl`, before
form-urlencoding; `none` models the body throwing (caught by the wrapper). -/
def googleCalendarParams (ev : Event) (o : Int) : Option (List (String × String)) :=
  match googleDatesParam ev o with
  | none => none
  | some ds =>
    some [("action", "TEMPLATE"), ("text", ev.name), ("dates", ds),
      ("details", googleDetails ev), ("location", ev.location.getD ""),
      ("sprop", "website:youth-sports-calendar")]

/-- Uppercase hexadecimal digits. -/
def hexDigits : List Char :=
  ['0', '1', '2', '3', '4', '5', '6', '7', '8', '9', 'A', 'B', 'C', 'D', 'E', 'F']

/-- Percent-encode one byte. -/
def percentByte (b : Nat) : String :=
  String.mk ['%', hexDigits.getD (b / 16) '0', hexDigits.getD (b % 16) '0']

/-- Bytes left verbatim by `URLSearchParams` serialization. -/
def isUrlSafeByte (b : Nat) : Bool :=
  (48 ≤ b && b ≤ 57) || (65 ≤ b && b ≤ 90) || (97 ≤ b && b ≤ 122) ||
    b == 42 || b == 45 || b == 46 || b == 95

/-- UTF-8 bytes of one code point. -/
def utf8BytesOfChar (n : Nat) : List Nat :=
  if n < 128 then [n]
  else if n < 2048 then [192 + n / 64, 128 + n % 64]
  else if n < 65536 then [224 + n / 4096, 128 + (n / 64) % 64, 128 + n % 64]
  else [240 + n / 262144, 128 + (n / 4096) % 64, 128 + (n / 64) % 64, 128 + n % 64]

/-- UTF-8 bytes of a string. -/
def utf8Bytes (s : String) : List Nat :=
  (s.toList.map (fun c => utf8BytesOfChar c.toNat)).flatten

/-- application/x-www-form-urlencoded encoding of one string. -/
def formEncode (s : String) : String :=
  String.join ((utf8Bytes s).map (fun b =>
    if b = 32 then "+"
    else if isUrlSafeByte b then String.mk [Char.ofNat b]
    else percentByte b))

/-- Serialization of `URLSearchParams`. -/
def encodeParams (ps : List (String × String)) : String :=
  String.intercalate "&" (ps.map (fun p => formEncode p.1 ++ "=" ++ formEncode p.2))

/-- export.js `generateGoogleCalendarUrl`: the full link, or the sentinel
`#` when the body throws. -/
def generateGoogleCalendarUrl (ev : Event) (o : Int) : String :=
  match googleCalendarParams ev o with
  | some ps => "https://calendar.google.com/calendar/render?" ++ encodeParams ps
  | none => "#"

/-- The start/end calendar-date triples serialized by `generateICSContent`:
both stored dates are parsed as UTC midnight and read back with the
local-time accessors; the end date is advanced one local day by `setDate`.
`none` when either date is Invalid, in which case the `ics` package's
`createEvent` reports a validation error on the NaN components. -/
def icsDateTriples (ev : Event) (o : Int) : Option (CivilDate × CivilDate) :=
  match jsDateNum ev.start_date, jsDateOfNullable ev.end_date with
  | some ns, some ne =>
    let startTriple := civilFromDays (jsLocalDay ns o)
    let endTriple := civilFromDays (jsNextLocalDay (jsLocalDay ne o))
    some (startTriple, endTriple)
  | _, _ => none

/-- The event description text shared by the exports. -/
def icsDescription (ev : Event) : String :=
  googleDetails ev

/-- The single VEVENT block the `ics` package serializes for an event. -/
def icsVEventBlock (ev : Event) (s e : CivilDate) : String :=
  "BEGIN:VEVENT\r\nUID:" ++ ev.id ++ "\r\nSUMMARY:" ++ ev.name ++
    "\r\nDTSTART;VALUE=DATE:" ++ pad4 s.year ++ pad2 s.month ++ pad2 s.day ++
    "\r\nDTEND;VALUE=DATE:" ++ pad4 e.year ++ pad2 e.month ++ pad2 e.day ++
    "\r\nLOCATION:" ++ ev.location.getD "" ++
    "\r\nDESCRIPTION:" ++ icsDescription ev ++
    "\r\nSTATUS:CONFIRMED\r\nEND:VEVENT"

/-- The VEVENT block the bulk exporter extracts from a successful
single-event document; empty for a failed event (never used there). -/
def icsSerializedBlock (ev : Event) (o : Int) : String :=
  match icsDateTriples ev o with
  | some (s, e) => icsVEventBlock ev s e
  | none => ""

/-- export.js `generateICSContent`: the serialized single-event calendar
document on success, a tagged error (the `{ error }` object) otherwise. -/
def generateICSContent (ev : Event) (o : Int) : Except String String :=
  match icsDateTriples ev o with
  | none => Except.error "invalid event data"
  | some (s, e) =>
    Except.ok ("BEGIN:VCALENDAR\r\nVERSION:2.0\r\nCALSCALE:GREGORIAN\r\n" ++
      icsVEventBlock ev s e ++ "\r\nEND:VCALENDAR")

/-- Truth value of an `Except` being a success. -/
def exceptOk {α β : Type} (x : Except α β) : Bool :=
  match x with
  | Except.ok _ => true
  | Except.error _ => false

/-- Outcome of the bulk export: either the distinct `no valid events`
alert, or a downloadable file with the combined document and the count of
successfully serialized events. -/
inductive BulkExportResult
  | noValidEvents
  | file (content : String) (eventCount : Nat)
deriving DecidableEq, Repr

/-- The fixed header of the combined document. -/
def bulkHeader : String :=
  "BEGIN:VCALENDAR\nVERSION:2.0\nPRODID:-//Youth Sports Calendar//EN\nCALSCALE:GREGORIAN\nMETHOD:PUBLISH\n"

/-- One iteration of the bulk loop: on success the regex
`BEGIN:VEVENT[sS]*?END:VEVENT` extracts the single VEVENT block of the
just-generated document, which is appended with a newline and counted;
a failed event leaves the accumulator untouched. -/
def bulkStep (o : Int) (acc : String × Nat) (ev : Event) : String × Nat :=
  match icsDateTriples ev o with
  | some (s, e) => (acc.1 ++ icsVEventBlock ev s e ++ "\n", acc.2 + 1)
  | none => acc

/-- export.js `downloadMultipleEventsICS`. -/
def downloadMultipleEventsICS (events : List Event) (o : Int) : BulkExportResult :=
  let r := events.foldl (bulkStep o) (bulkHeader, 0)
  if r.2 = 0 then BulkExportResult.noValidEvents
  else BulkExportResult.file (r.1 ++ "END:VCALENDAR") r.2

/-- Concatenation of a list of strings (the bulk accumulator grows by one
block per successful event). -/
def concatStrings : List String → String
  | [] => ""
  | s :: rest => s ++ concatStrings rest

/-! Concrete example records used to exercise the theorems. -/

/-- Example event named Zeta on 2024-03-15. -/
def evZeta : Event :=
  ⟨"1", "Zeta", none, none, none, none, none, none, "2024-03-15", none⟩

/-- Example event named Alpha on 2024-03-15. -/
def evAlpha : Event :=
  ⟨"2", "Alpha", none, none, none, none, none, none, "2024-03-15", none⟩

/-- Example event named Mid on 2024-03-15. -/
def evMid : Event :=
  ⟨"3", "Mid", none, none, none, none, none, none, "2024-03-15", none⟩

/-- Example fully populated one-day event. -/
def evCup : Event :=
  ⟨"4", "Springfield Cup", some "soccer", some "Springfield", some "U10", some "Coed",
    some "Tournament", none, "2024-03-15", some "2024-03-15"⟩

/-- Example event whose stored end date does not parse. -/
def evBadEnd : Event :=
  ⟨"5", "Broken End", some "soccer", some "Springfield", some "U10", some "Coed",
    some "Tournament", none, "2024-03-15", some "not-a-date"⟩

/-- Example event whose stored start date does not parse. -/
def evBadStart : Event :=
  ⟨"6", "Broken Start", some "soccer", some "Springfield", some "U10", some "Coed",
    some "Tournament", none, "garbage", some "2024-03-15"⟩

/-- Example event with no location on record. -/
def evNoLoc : Event :=
  ⟨"7", "No Location", some "soccer", none, some "U10", some "Coed",
    some "Tournament", none, "2024-03-15", some "2024-03-15"⟩


/-! Calendar arithmetic facts. -/

set_option maxHeartbeats 4000000 in
/-- Within one era, `daysFromCivil` inverts `civilOfEraDoe`. -/
theorem daysFromCivil_civilOfEraDoe (era doe : Int) (h1 : 0 ≤ doe) (h2 : doe < 146097) :
    daysFromCivil (civilOfEraDoe era doe) = era * 146097 + doe - 719468 := by
  unfold civilOfEraDoe daysFromCivil
  simp only []
  set yoe := (doe - doe / 1460 + doe / 36524 - doe / 146096) / 365 with hyoe
  have hyb : 0 ≤ yoe ∧ yoe ≤ 399 := by constructor <;> omega
  have hdoy : 0 ≤ doe - (365 * yoe + yoe / 4 - yoe / 100) ∧
      doe - (365 * yoe + yoe / 4 - yoe / 100) ≤ 365 := by
    have hq : ∃ c, yoe / 100 = c ∧ (c = 0 ∨ c = 1 ∨ c = 2 ∨ c = 3) := ⟨yoe / 100, rfl, by omega⟩
    obtain ⟨c, hc, hc'⟩ := hq
    rcases hc' with h | h | h | h <;> constructor <;> omega
  set doy := doe - (365 * yoe + yoe / 4 - yoe / 100) with hdoydef
  set mp := (5 * doy + 2) / 153 with hmp
  have hmpb : 0 ≤ mp ∧ mp ≤ 11 := by constructor <;> omega
  have hmp12a : (mp + 3 + 9) % 12 = mp := by omega
  have hmp12b : (mp - 9 + 9) % 12 = mp := by omega
  have hyk : (yoe + era * 400) / 400 = era := by omega
  have hyk2 : (yoe + era * 400 + 1 - 1) / 400 = era := by omega
  have hxj : yoe + era * 400 - era * 400 = yoe := by ring
  have hxj2 : yoe + era * 400 + 1 - 1 - era * 400 = yoe := by ring
  split_ifs with h1 h2 h3
  · omega
  · rw [hmp12a, hyk, hxj]; omega
  · rw [hmp12b, hyk2, hxj2]; omega
  · omega

set_option maxHeartbeats 4000000 in
/-- `daysFromCivil` is a left inverse of `civilFromDays`. -/
theorem daysFromCivil_civilFromDays (z : Int) : daysFromCivil (civilFromDays z) = z := by
  unfold civilFromDays
  rw [daysFromCivil_civilOfEraDoe _ _ (by omega) (by omega)]
  omega

theorem isLeapYear_eq_true_iff (y : Int) :
    isLeapYear y = true ↔ ((y % 4 = 0 ∧ y % 100 ≠ 0) ∨ y % 400 = 0) := by
  simp [isLeapYear, Bool.or_eq_true, Bool.and_eq_true, beq_iff_eq, bne_iff_ne]


theorem civilFromDays_eraDoe (era doe : Int) (h1 : 0 ≤ doe) (h2 : doe < 146097) :
    civilFromDays (era * 146097 + doe - 719468) = civilOfEraDoe era doe := by
  unfold civilFromDays
  have ha : era * 146097 + doe - 719468 + 719468 = era * 146097 + doe := by ring
  rw [ha]
  have hq : (era * 146097 + doe) / 146097 = era := by omega
  have hr : (era * 146097 + doe) % 146097 = doe := by omega
  rw [hq, hr]

set_option maxHeartbeats 4000000 in
/-- The Hinnant year-of-era extraction formula recovers the year-of-era. -/
theorem yoeRecover (yoe doy : Int) (h0 : 0 ≤ yoe) (h1 : yoe ≤ 399) (h2 : 0 ≤ doy)
    (h3 : doy ≤ 364 ∨ ((((yoe + 1) % 4 = 0 ∧ (yoe + 1) % 100 ≠ 0) ∨ yoe = 399) ∧ doy ≤ 365)) :
    ((yoe * 365 + yoe / 4 - yoe / 100 + doy) -
        (yoe * 365 + yoe / 4 - yoe / 100 + doy) / 1460 +
        (yoe * 365 + yoe / 4 - yoe / 100 + doy) / 36524 -
        (yoe * 365 + yoe / 4 - yoe / 100 + doy) / 146096) / 365 = yoe := by
  have hshift : yoe / 4 = 25 * (yoe / 100) + (yoe % 100) / 4 := by omega
  have e1eq : (yoe * 365 + yoe / 4 - yoe / 100 + doy) / 1460 =
      yoe / 4 + (365 * (yoe % 4) + yoe / 4 - yoe / 100 + doy) / 1460 := by
    omega
  have e2eq : (yoe * 365 + yoe / 4 - yoe / 100 + doy) / 36524 =
      yoe / 100 + (365 * (yoe % 100) + (yoe % 100) / 4 + doy) / 36524 := by
    omega
  have hT1 : 0 ≤ (365 * (yoe % 4) + yoe / 4 - yoe / 100 + doy) / 1460 ∧
      (365 * (yoe % 4) + yoe / 4 - yoe / 100 + doy) / 1460 ≤ 1 := by
    constructor <;> omega
  have hT2 : 0 ≤ (365 * (yoe % 100) + (yoe % 100) / 4 + doy) / 36524 ∧
      (365 * (yoe % 100) + (yoe % 100) / 4 + doy) / 36524 ≤ 1 := by
    constructor <;> omega
  have hT3 : 0 ≤ (yoe * 365 + yoe / 4 - yoe / 100 + doy) / 146096 ∧
      (yoe * 365 + yoe / 4 - yoe / 100 + doy) / 146096 ≤ 1 := by
    constructor <;> omega
  rw [e1eq, e2eq]
  clear e1eq e2eq
  rcases h3 with hL | ⟨hL | hL, hL2⟩
  · omega
  · rcases Int.lt_or_le doy 365 with hd | hd
    · omega
    · have hT1' : (365 * (yoe % 4) + yoe / 4 - yoe / 100 + doy) / 1460 = 1 := by omega
      have hT2' : (365 * (yoe % 100) + (yoe % 100) / 4 + doy) / 36524 = 0 := by omega
      have hT3' : (yoe * 365 + yoe / 4 - yoe / 100 + doy) / 146096 = 0 := by omega
      omega
  · omega

set_option maxHeartbeats 4000000 in
/-- `civilFromDays` is a left inverse of `daysFromCivil` on valid civil dates. -/
theorem civilFromDays_daysFromCivil (t : CivilDate) (hv : ValidCivilDate t) :
    civilFromDays (daysFromCivil t) = t := by
  obtain ⟨y, m, d⟩ := t
  unfold ValidCivilDate at hv
  simp only [] at hv
  obtain ⟨hm1, hm2, hd1, hd2⟩ := hv
  have hdm31 : d ≤ 31 := by
    unfold daysInMonth at hd2; split_ifs at hd2 <;> omega
  have hfeb : m = 2 → d ≤ 29 := by
    intro hm; unfold daysInMonth at hd2; split_ifs at hd2 <;> omega
  have hfeb29 : m = 2 → d = 29 → ((y % 4 = 0 ∧ y % 100 ≠ 0) ∨ y % 400 = 0) := by
    intro hm h29
    rw [← isLeapYear_eq_true_iff]
    unfold daysInMonth at hd2
    rw [if_pos hm] at hd2
    cases h : isLeapYear y with
    | true => rfl
    | false => rw [h] at hd2; simp at hd2; omega
  have hdm30 : (m = 4 ∨ m = 6 ∨ m = 9 ∨ m = 11) → d ≤ 30 := by
    intro hm; unfold daysInMonth at hd2; split_ifs at hd2 <;> omega
  clear hd2
  unfold daysFromCivil
  simp only []
  set yA := if m ≤ 2 then y - 1 else y with hyA
  set era := yA / 400 with hera
  set yoe := yA - era * 400 with hyoe
  have hyoeb : 0 ≤ yoe ∧ yoe ≤ 399 := by constructor <;> omega
  set mp := (m + 9) % 12 with hmp
  have hmpb : 0 ≤ mp ∧ mp ≤ 11 := by constructor <;> omega
  have hmpfeb : mp = 11 → m = 2 := by omega
  set doy := (153 * mp + 2) / 5 + d - 1 with hdoy
  have hdoyB : 0 ≤ doy ∧ doy ≤ 365 := by
    constructor
    · omega
    · rcases Int.lt_or_le mp 11 with h | h
      · omega
      · have hm2 : m = 2 := hmpfeb (by omega)
        have := hfeb hm2
        omega
  set doe := yoe * 365 + yoe / 4 - yoe / 100 + doy with hdoe
  have hdoeB : 0 ≤ doe ∧ doe < 146097 := by constructor <;> omega
  rw [civilFromDays_eraDoe era doe hdoeB.1 hdoeB.2]
  unfold civilOfEraDoe
  simp only []
  have hyfrom1 : m ≤ 2 → y = era * 400 + yoe + 1 := by
    intro h; simp only [hyoe, hera, hyA, if_pos h]; omega
  have hyfrom2 : ¬ m ≤ 2 → y = era * 400 + yoe := by
    intro h; simp only [hyoe, hera, hyA, if_neg h]; omega
  have hleapYoe : doy ≤ 364 ∨
      ((((yoe + 1) % 4 = 0 ∧ (yoe + 1) % 100 ≠ 0) ∨ yoe = 399) ∧ doy ≤ 365) := by
    rcases Int.lt_or_le doy 365 with h | h
    · left; omega
    · have hmp11 : mp = 11 := by omega
      have hm2 : m = 2 := hmpfeb hmp11
      have hd29 : d = 29 := by omega
      have hy : y = era * 400 + yoe + 1 := hyfrom1 (by omega)
      rcases hfeb29 hm2 hd29 with hL | hL
      · right; exact ⟨Or.inl (by omega), by omega⟩
      · right; exact ⟨Or.inr (by omega), by omega⟩
  have hyoe1 : (doe - doe / 1460 + doe / 36524 - doe / 146096) / 365 = yoe := by
    rw [hdoe]
    exact yoeRecover yoe doy hyoeb.1 hyoeb.2 hdoyB.1 hleapYoe
  rw [hyoe1]
  have hdoy1 : doe - (365 * yoe + yoe / 4 - yoe / 100) = doy := by omega
  rw [hdoy1]
  have hmp1 : (5 * doy + 2) / 153 = mp := by
    have hcap30 : (mp = 1 ∨ mp = 3 ∨ mp = 6 ∨ mp = 8) → d ≤ 30 := by
      intro h; apply hdm30; omega
    have hcap29 : mp = 11 → d ≤ 29 := fun h => hfeb (hmpfeb h)
    have h12 : mp = 0 ∨ mp = 1 ∨ mp = 2 ∨ mp = 3 ∨ mp = 4 ∨ mp = 5 ∨ mp = 6 ∨ mp = 7 ∨
        mp = 8 ∨ mp = 9 ∨ mp = 10 ∨ mp = 11 := by omega
    rcases h12 with h | h | h | h | h | h | h | h | h | h | h | h
    · omega
    · have := hcap30 (by omega); omega
    · omega
    · have := hcap30 (by omega); omega
    · omega
    · omega
    · have := hcap30 (by omega); omega
    · omega
    · have := hcap30 (by omega); omega
    · omega
    · omega
    · have := hcap29 (by omega); omega
  rw [hmp1]
  have hd1' : doy - (153 * mp + 2) / 5 + 1 = d := by omega
  rw [hd1']
  have hmonth : (if mp < 10 then mp + 3 else mp - 9) = m := by split_ifs <;> omega
  rw [hmonth]
  have hyear : (if m ≤ 2 then yoe + era * 400 + 1 else yoe + era * 400) = y := by
    split_ifs with h
    · have := hyfrom1 h; omega
    · have := hyfrom2 h; omega
  rw [hyear]

/-- Shifting only the day field shifts the day count by the same amount. -/
theorem daysFromCivil_day_shift (y m d : Int) :
    daysFromCivil ⟨y, m, d⟩ = daysFromCivil ⟨y, m, 1⟩ + d - 1 := by
  unfold daysFromCivil
  simp only []
  split <;> ring

/-- Unfolding of validity on a literal civil date. -/
theorem validCivilDate_mk (y m d : Int) :
    ValidCivilDate ⟨y, m, d⟩ ↔ (1 ≤ m ∧ m ≤ 12 ∧ 1 ≤ d ∧ d ≤ daysInMonth y m) :=
  Iff.rfl

/-- Advancing the day-of-month field by one advances the day count by one. -/
theorem jsNextLocalDay_eq (ld : Int) : jsNextLocalDay ld = ld + 1 := by
  unfold jsNextLocalDay
  simp only []
  rcases hc : civilFromDays ld with ⟨cy, cm, cd⟩
  have h := daysFromCivil_civilFromDays ld
  rw [hc] at h
  have h2 := daysFromCivil_day_shift cy cm cd
  simp only []
  omega

/-- The `setDate(getDate() + 1)` then `toISOString` pipeline lands on the next
UTC day, for every fixed host offset. -/
theorem jsIsoDayAfterSetDate_eq (n o : Int) : jsIsoDayAfterSetDate n o = n + 1 := by
  unfold jsIsoDayAfterSetDate
  simp only []
  rw [jsNextLocalDay_eq]
  omega

/-- With a negative offset the local calendar day is one before the UTC day. -/
theorem jsLocalDay_neg (n o : Int) (h1 : -1440 < o) (h2 : o < 0) :
    jsLocalDay n o = n - 1 := by
  unfold jsLocalDay
  omega

set_option maxHeartbeats 4000000 in
/-- The calendar predecessor is valid and sits one day earlier in day count. -/
theorem daysFromCivil_predCivil (t : CivilDate) (hv : ValidCivilDate t) :
    daysFromCivil (predCivil t) = daysFromCivil t - 1 ∧ ValidCivilDate (predCivil t) := by
  obtain ⟨y, m, d⟩ := t
  rw [validCivilDate_mk] at hv
  obtain ⟨hm1, hm2, hd1, hd2⟩ := hv
  unfold predCivil
  simp only []
  split_ifs with hgt1 hgtm
  · constructor
    · rw [daysFromCivil_day_shift y m (d - 1), daysFromCivil_day_shift y m d]; ring
    · rw [validCivilDate_mk]; exact ⟨hm1, hm2, by omega, by omega⟩
  · have hd1' : d = 1 := by omega
    subst hd1'
    have harith := isLeapYear_eq_true_iff y
    have h11 : m = 3 ∨ (m = 2 ∨ m = 4 ∨ m = 5 ∨ m = 6 ∨ m = 7 ∨ m = 8 ∨ m = 9 ∨
        m = 10 ∨ m = 11 ∨ m = 12) := by omega
    rcases h11 with h | h
    · subst h
      have hsplit : (y % 400 = 0 ∧ y / 400 = (y - 1) / 400 + 1) ∨
          (y % 400 ≠ 0 ∧ y / 400 = (y - 1) / 400) := by omega
      constructor
      · unfold daysFromCivil daysInMonth
        simp only []
        cases hb : isLeapYear y <;> rw [hb] at harith <;> simp only [false_iff,
          true_iff, Bool.false_eq_true, not_or, not_and, not_not] at harith <;>
          simp only [Bool.false_eq_true, if_true, if_false, eq_self_iff_true] <;>
          split_ifs <;> rcases hsplit with ⟨hz, he⟩ | ⟨hz, he⟩ <;> omega
      · rw [validCivilDate_mk]
        unfold daysInMonth
        split_ifs <;> omega
    · rcases h with h | h | h | h | h | h | h | h | h | h <;> subst h <;>
        constructor <;>
        first
          | (rw [validCivilDate_mk]; unfold daysInMonth; split_ifs <;> omega)
          | (unfold daysFromCivil daysInMonth; simp only []; split_ifs <;> omega)
  · have hd1' : d = 1 := by omega
    have hm1' : m = 1 := by omega
    subst hd1'; subst hm1'
    constructor
    · unfold daysFromCivil
      simp only []
      norm_num
      omega
    · rw [validCivilDate_mk]
      unfold daysInMonth
      norm_num

/-- Stepping the day count back by one steps the valid civil date back to its
calendar predecessor. -/
theorem civilFromDays_sub_one (t : CivilDate) (hv : ValidCivilDate t) :
    civilFromDays (daysFromCivil t - 1) = predCivil t := by
  have h := daysFromCivil_predCivil t hv
  rw [← h.1]
  exact civilFromDays_daysFromCivil _ h.2

/-- A date accepted by the strict ISO parser is valid. -/
theorem parseISODate_valid {s : String} {t : CivilDate}
    (h : parseISODate s = some t) : ValidCivilDate t := by
  unfold parseISODate at h
  split at h
  · split_ifs at h with hv
    cases h; exact hv
  · exact absurd h (by simp)

/-! String comparison facts. -/

/-- Reading back the code point of a packed valid code point. -/
theorem char_toNat_ofNat (n : Nat) (h : n.isValidChar) : (Char.ofNat n).toNat = n := by
  unfold Char.ofNat
  rw [dif_pos h]
  rfl

/-- The ASCII case fold is idempotent on characters. -/
theorem char_toLower_idem (c : Char) : c.toLower.toLower = c.toLower := by
  unfold Char.toLower
  simp only []
  split_ifs with h1 h2
  · exfalso
    rw [char_toNat_ofNat (c.toNat + 32) (Or.inl (by omega))] at h2
    omega
  · rfl
  · rfl

/-- The ASCII case fold is idempotent on strings. -/
theorem jsToLower_idem (s : String) : jsToLower (jsToLower s) = jsToLower s := by
  unfold jsToLower
  congr 1
  show List.map Char.toLower (List.map Char.toLower s.toList) = List.map Char.toLower s.toList
  rw [List.map_map]
  apply List.map_congr_left
  intro a _
  show Char.toLower (Char.toLower a) = Char.toLower a
  exact char_toLower_idem a

/-- The executable code-unit comparison agrees with the lexicographic order
on character lists. -/
theorem charListLt_iff (as bs : List Char) : charListLt as bs = true ↔ as < bs := by
  induction as generalizing bs with
  | nil =>
    cases bs with
    | nil =>
      refine iff_of_false (by simp [charListLt]) ?_
      intro h; cases h
    | cons b bs =>
      exact iff_of_true rfl List.Lex.nil
  | cons a as ih =>
    cases bs with
    | nil =>
      refine iff_of_false (by simp [charListLt]) ?_
      intro h; cases h
    | cons b bs =>
      unfold charListLt
      split_ifs with hab hba
      · exact iff_of_true rfl (List.Lex.rel hab)
      · refine iff_of_false (by simp) ?_
        intro h
        cases h with
        | rel h => exact hab h
        | cons h => exact absurd hba (lt_irrefl a)
      · have he : a = b := le_antisymm (not_lt.mp hba) (not_lt.mp hab)
        subst he
        rw [ih]
        constructor
        · intro h; exact List.Lex.cons h
        · intro h
          cases h with
          | rel h => exact absurd h hab
          | cons h => exact h

/-- The executable string comparison agrees with the order on strings. -/
theorem jsStrLt_iff (x y : String) : jsStrLt x y = true ↔ x < y := by
  unfold jsStrLt
  rw [charListLt_iff]
  exact Iff.symm String.lt_iff_toList_lt

/-- Characterization of a non-positive `localeCompare` result: the case-folded
strings compare strictly, or they tie and the raw strings compare. -/
theorem jsLocaleCompare_le_iff (x y : String) :
    jsLocaleCompare x y ≤ 0 ↔
      (jsToLower x < jsToLower y ∨ (jsToLower x = jsToLower y ∧ x ≤ y)) := by
  unfold jsLocaleCompare
  simp only [jsStrLt_iff]
  split_ifs with h1 h2 h3 h4
  · constructor
    · intro _; exact Or.inl h1
    · intro _; norm_num
  · constructor
    · intro hc; norm_num at hc
    · intro hc
      exfalso
      rcases hc with hc | ⟨hc, _⟩
      · exact h1 hc
      · rw [hc] at h2; exact lt_irrefl _ h2
  · have heq : jsToLower x = jsToLower y := le_antisymm (not_lt.mp h2) (not_lt.mp h1)
    constructor
    · intro _; exact Or.inr ⟨heq, le_of_lt h3⟩
    · intro _; norm_num
  · constructor
    · intro hc; norm_num at hc
    · intro hc
      exfalso
      rcases hc with hc | ⟨_, hc⟩
      · exact h1 hc
      · exact absurd h4 (not_lt.mpr hc)
  · have heq : jsToLower x = jsToLower y := le_antisymm (not_lt.mp h2) (not_lt.mp h1)
    constructor
    · intro _; exact Or.inr ⟨heq, not_lt.mp h4⟩
    · intro _; norm_num

/-- Transitivity of the non-positive `localeCompare` relation. -/
theorem jsLocaleCompare_le_trans {x y z : String}
    (h1 : jsLocaleCompare x y ≤ 0) (h2 : jsLocaleCompare y z ≤ 0) :
    jsLocaleCompare x z ≤ 0 := by
  rw [jsLocaleCompare_le_iff] at h1 h2 ⊢
  rcases h1 with h1 | ⟨h1e, h1r⟩ <;> rcases h2 with h2 | ⟨h2e, h2r⟩
  · exact Or.inl (lt_trans h1 h2)
  · exact Or.inl (by rw [← h2e]; exact h1)
  · exact Or.inl (by rw [h1e]; exact h2)
  · exact Or.inr ⟨h1e.trans h2e, le_trans h1r h2r⟩

/-- Totality of the non-positive `localeCompare` relation. -/
theorem jsLocaleCompare_le_total (x y : String) :
    jsLocaleCompare x y ≤ 0 ∨ jsLocaleCompare y x ≤ 0 := by
  rw [jsLocaleCompare_le_iff, jsLocaleCompare_le_iff]
  rcases lt_trichotomy (jsToLower x) (jsToLower y) with h | h | h
  · exact Or.inl (Or.inl h)
  · rcases le_total x y with hxy | hxy
    · exact Or.inl (Or.inr ⟨h, hxy⟩)
    · exact Or.inr (Or.inr ⟨h.symm, hxy⟩)
  · exact Or.inr (Or.inl h)

/-- The week-view comparator is transitive. -/
theorem weekRel_trans (a b c : Event) (hab : weekRel a b) (hbc : weekRel b c) :
    weekRel a c := by
  unfold weekRel at hab hbc ⊢
  exact jsLocaleCompare_le_trans hab hbc

/-- The week-view comparator is total. -/
theorem weekRel_total (a b : Event) : weekRel a b ∨ weekRel b a := by
  unfold weekRel
  exact jsLocaleCompare_le_total a.name b.name

/-- A week-view comparison implies case-insensitive name order. -/
theorem weekRel_implies_ci {a b : Event} (h : weekRel a b) :
    jsToLower a.name ≤ jsToLower b.name := by
  unfold weekRel at h
  rw [jsLocaleCompare_le_iff] at h
  rcases h with h | ⟨he, _⟩
  · exact le_of_lt h
  · exact le_of_eq he

/-- The month-view comparator is transitive. -/
theorem dayCellRel_trans (a b c : Event) (hab : dayCellRel a b)
    (hbc : dayCellRel b c) : dayCellRel a c := by
  unfold dayCellRel at hab hbc ⊢
  exact jsLocaleCompare_le_trans hab hbc

/-- The month-view comparator is total. -/
theorem dayCellRel_total (a b : Event) : dayCellRel a b ∨ dayCellRel b a := by
  unfold dayCellRel
  exact jsLocaleCompare_le_total (jsToLower a.name) (jsToLower b.name)

/-- A month-view comparison implies case-insensitive name order. -/
theorem dayCellRel_implies_ci {a b : Event} (h : dayCellRel a b) :
    jsToLower a.name ≤ jsToLower b.name := by
  unfold dayCellRel at h
  rw [jsLocaleCompare_le_iff, jsToLower_idem, jsToLower_idem] at h
  rcases h with h | ⟨he, _⟩
  · exact le_of_lt h
  · exact le_of_eq he

/-! Claims about the view projector. -/

/-- C1: in month view, for every grid day, when more than 2 events start on
that day the displayed tiles are the first 2 of a case-insensitively
name-sorted permutation of that day's events and the overflow indicator
shows the count minus 2; with 2 or fewer events the original input order is
kept and no sort is applied. -/
theorem c1_month_view_truncation (events : List Event) (day : Int) :
    (2 < (dayCellEvents events day).length →
      ∃ L, List.Perm L (dayCellEvents events day) ∧
        L.Pairwise (fun a b => jsToLower a.name ≤ jsToLower b.name) ∧
        (dayCell events day).displayed = L.take 2 ∧
        (dayCell events day).overflow = some (((dayCellEvents events day).length : Int) - 2)) ∧
    ((dayCellEvents events day).length ≤ 2 →
      (dayCell events day).displayed = dayCellEvents events day ∧
      (dayCell events day).overflow = none) := by
  haveI : IsTrans Event dayCellRel := ⟨dayCellRel_trans⟩
  haveI : IsTotal Event dayCellRel := ⟨dayCellRel_total⟩
  constructor
  · intro hgt
    refine ⟨List.insertionSort dayCellRel (dayCellEvents events day),
      List.perm_insertionSort _ _, ?_, ?_, ?_⟩
    · exact (List.sorted_insertionSort dayCellRel
        (dayCellEvents events day)).imp (fun h => dayCellRel_implies_ci h)
    · simp [dayCell, sortedDayEvents, if_pos hgt]
    · simp [dayCell, sortedDayEvents, if_pos hgt,
        (List.perm_insertionSort dayCellRel (dayCellEvents events day)).length_eq]
  · intro hle
    have hnot : ¬ 2 < (dayCellEvents events day).length := by omega
    have hsort : sortedDayEvents events day = dayCellEvents events day := by
      unfold sortedDayEvents
      simp only [if_neg hnot]
    constructor
    · show (sortedDayEvents events day).take 2 = dayCellEvents events day
      rw [hsort]
      exact List.take_of_length_le (by omega)
    · show (if 2 < (sortedDayEvents events day).length then
          some (((sortedDayEvents events day).length : Int) - 2) else none) = none
      rw [hsort, if_neg hnot]

/-- Witness for C1: the day holding exactly Zeta, Alpha and Mid displays the
sorted pair and an overflow of one. -/
theorem c1_month_view_truncation_witness :
    (∃ L, List.Perm L (dayCellEvents [evZeta, evAlpha, evMid] 19797) ∧
      L.Pairwise (fun a b => jsToLower a.name ≤ jsToLower b.name) ∧
      (dayCell [evZeta, evAlpha, evMid] 19797).displayed = L.take 2 ∧
      (dayCell [evZeta, evAlpha, evMid] 19797).overflow =
        some (((dayCellEvents [evZeta, evAlpha, evMid] 19797).length : Int) - 2)) ∧
    (dayCell [evZeta, evAlpha, evMid] 19797).displayed.map Event.name = ["Alpha", "Mid"] ∧
    (dayCell [evZeta, evAlpha, evMid] 19797).overflow = some 1 :=
  ⟨(c1_month_view_truncation [evZeta, evAlpha, evMid] 19797).1 (by decide),
    by decide, by decide⟩

/-- C2: in week view the seven columns cover the week starting at the Sunday
on or before the anchor, and every column's event list is unconditionally
sorted by case-insensitive name, displayed truncated to 2, with an overflow
indicator of count minus 2 when more exist. -/
theorem c2_week_view_sorted (events : List Event) (anchor : Int) (i : Nat) (hi : i < 7) :
    (renderWeekView events anchor).length = 7 ∧
    (startOfWeek anchor + 4) % 7 = 0 ∧
    startOfWeek anchor ≤ anchor ∧ anchor < startOfWeek anchor + 7 ∧
    ∃ L, List.Perm L (events.filter
        (fun e => eventStartsOnDay e (startOfWeek anchor + (i : Int)))) ∧
      L.Pairwise (fun a b => jsToLower a.name ≤ jsToLower b.name) ∧
      ((renderWeekView events anchor).getD i ⟨0, [], none⟩).day =
        startOfWeek anchor + (i : Int) ∧
      ((renderWeekView events anchor).getD i ⟨0, [], none⟩).displayed = L.take 2 ∧
      ((renderWeekView events anchor).getD i ⟨0, [], none⟩).overflow =
        (if 2 < L.length then some ((L.length : Int) - 2) else none) := by
  haveI : IsTrans Event weekRel := ⟨weekRel_trans⟩
  haveI : IsTotal Event weekRel := ⟨weekRel_total⟩
  have hcol : (renderWeekView events anchor).getD i ⟨0, [], none⟩ =
      ⟨startOfWeek anchor + (i : Int),
        (getEventsForDate events (startOfWeek anchor + (i : Int))).take 2,
        if 2 < (getEventsForDate events (startOfWeek anchor + (i : Int))).length then
          some (((getEventsForDate events (startOfWeek anchor + (i : Int))).length : Int) - 2)
        else none⟩ := by
    unfold renderWeekView
    rw [List.getD_eq_getElem?_getD, List.getElem?_map, List.getElem?_range hi]
    rfl
  refine ⟨by simp [renderWeekView], by unfold startOfWeek; omega,
    by unfold startOfWeek; omega, by unfold startOfWeek; omega, ?_⟩
  refine ⟨getEventsForDate events (startOfWeek anchor + (i : Int)), ?_, ?_, ?_, ?_, ?_⟩
  · unfold getEventsForDate
    exact List.perm_insertionSort _ _
  · unfold getEventsForDate
    exact (List.sorted_insertionSort weekRel _).imp (fun h => weekRel_implies_ci h)
  · rw [hcol]
  · rw [hcol]
  · rw [hcol]

/-- Witness for C2: the third column of a concrete week. -/
theorem c2_week_view_sorted_witness :
    (renderWeekView [evCup] 19797).length = 7 ∧
    (startOfWeek 19797 + 4) % 7 = 0 ∧
    startOfWeek 19797 ≤ 19797 ∧ 19797 < startOfWeek 19797 + 7 ∧
    ∃ L, List.Perm L ([evCup].filter
        (fun e => eventStartsOnDay e (startOfWeek 19797 + ((2 : Nat) : Int)))) ∧
      L.Pairwise (fun a b => jsToLower a.name ≤ jsToLower b.name) ∧
      ((renderWeekView [evCup] 19797).getD 2 ⟨0, [], none⟩).day =
        startOfWeek 19797 + ((2 : Nat) : Int) ∧
      ((renderWeekView [evCup] 19797).getD 2 ⟨0, [], none⟩).displayed = L.take 2 ∧
      ((renderWeekView [evCup] 19797).getD 2 ⟨0, [], none⟩).overflow =
        (if 2 < L.length then some ((L.length : Int) - 2) else none) :=
  c2_week_view_sorted [evCup] 19797 2 (by decide)

/-! List-view sorting (claim C3). -/

/-- An `Except` is a success exactly when it is an `ok`. -/
theorem exceptOk_iff {α β : Type} (x : Except α β) :
    exceptOk x = true ↔ ∃ b, x = Except.ok b := by
  cases x with
  | error e => simp [exceptOk]
  | ok b => simp [exceptOk]

/-- Monadic bind on a successful `Except` applies the continuation. -/
theorem exceptBindOk {α β γ : Type} (b : β) (f : β → Except α γ) :
    ((Except.ok b : Except α β) >>= f) = f b := rfl

/-- Insertion with a comparator that never fails never fails. -/
theorem insertSortedM_ok (cmp : Event → Event → Except Unit Int)
    (h : ∀ a b, exceptOk (cmp a b) = true) (x : Event) :
    ∀ l, ∃ r, insertSortedM cmp x l = Except.ok r := by
  intro l
  induction l with
  | nil => exact ⟨[x], rfl⟩
  | cons y ys ih =>
    obtain ⟨c, hc⟩ := (exceptOk_iff (cmp x y)).mp (h x y)
    obtain ⟨r, hr⟩ := ih
    by_cases hle : c ≤ 0
    · refine ⟨x :: y :: ys, ?_⟩
      simp only [insertSortedM]
      rw [hc, exceptBindOk, if_pos hle]
      rfl
    · refine ⟨y :: r, ?_⟩
      simp only [insertSortedM]
      rw [hc, exceptBindOk, if_neg hle, hr, exceptBindOk]
      rfl

/-- Sorting with a comparator that never fails never fails. -/
theorem sortEventsM_ok (cmp : Event → Event → Except Unit Int)
    (h : ∀ a b, exceptOk (cmp a b) = true) :
    ∀ l, ∃ r, sortEventsM cmp l = Except.ok r := by
  intro l
  induction l with
  | nil => exact ⟨[], rfl⟩
  | cons x xs ih =>
    obtain ⟨r, hr⟩ := ih
    obtain ⟨r2, hr2⟩ := insertSortedM_ok cmp h x r
    refine ⟨r2, ?_⟩
    simp only [sortEventsM]
    rw [hr, exceptBindOk, hr2]

/-- C3 counterexample: sorting by location over a list holding a record with
no location throws (the comparator reads `toLowerCase` of `null`), modelled
as the comparator exception propagating out of the sort; the missing field
is not treated as an empty string. -/
theorem c3_sort_missing_field_counterexample :
    sortedEvents [evCup, evNoLoc] SortField.location true = Except.error () := rfl

/-- C3 (amended): list-view sorting never throws on the name, start-date and
event-type fields; only the event-type comparator guards a missing field,
which it treats exactly as the empty string.  (Sorting by sport, location,
age or gender over a record missing that field throws, see the
counterexample.) -/
theorem c3_sort_missing_field (events : List Event) (asc : Bool) (f : SortField)
    (hf : f = SortField.name ∨ f = SortField.startDateTime ∨ f = SortField.eventType) :
    (∃ r, sortedEvents events f asc = Except.ok r) ∧
    (∀ a b : Event, a.event_type = none →
      compareEvents SortField.eventType asc a b =
        compareEvents SortField.eventType asc { a with event_type := some "" } b) := by
  constructor
  · rcases hf with hf | hf | hf <;> subst hf
    · exact sortEventsM_ok (compareEvents SortField.name asc) (fun a b => rfl) events
    · exact sortEventsM_ok (compareEvents SortField.startDateTime asc)
        (fun a b => rfl) events
    · exact sortEventsM_ok (compareEvents SortField.eventType asc)
        (fun a b => rfl) events
  · intro a b h
    simp [compareEvents, h]

/-- Witness for C3: sorting the two example records by name succeeds. -/
theorem c3_sort_missing_field_witness :
    ∃ r, sortedEvents [evCup, evNoLoc] SortField.name true = Except.ok r :=
  (c3_sort_missing_field [evCup, evNoLoc] true SortField.name (Or.inl rfl)).1

/-! Filter engine (claim C4). -/

/-- A JavaScript comparison of an Invalid Date against a bound is false. -/
theorem jsDateLtBound_none (bound : Option Int) : jsDateLtBound none bound = false := by
  cases bound <;> rfl

/-- A JavaScript comparison of an Invalid Date against a bound is false. -/
theorem jsDateGtBound_none (bound : Option Int) : jsDateGtBound none bound = false := by
  cases bound <;> rfl

/-- C4: `filterEvents` never throws on a malformed `start_date` (the filter
is a total function), and such an event fails open: with a date-range bound
set it still passes the range check, so its membership in the filtered list
is decided by the text filters alone. -/
theorem c4_malformed_date_fails_open (r : DateRange) (e : Event)
    (hbad : jsDateNum e.start_date = none) :
    passesDateRange r e = true ∧
    (∀ events searchQuery filters, filters.dateRange = r →
      (e ∈ filterEvents events searchQuery filters ↔
        e ∈ events ∧ passesTextFilters searchQuery filters e = true)) := by
  have hpass : passesDateRange r e = true := by
    unfold passesDateRange
    split_ifs with hb
    · simp [hbad, jsDateLtBound_none, jsDateGtBound_none]
    · rfl
  refine ⟨hpass, ?_⟩
  intro events q filters hfr
  unfold filterEvents
  rw [List.mem_filter]
  rw [hfr, hpass, Bool.and_true]

/-- Witness for C4: the record with the unparseable start date passes a set
date range. -/
theorem c4_malformed_date_fails_open_witness :
    passesDateRange ⟨some 19797, none⟩ evBadStart = true :=
  (c4_malformed_date_fails_open ⟨some 19797, none⟩ evBadStart (by decide)).1

/-! Date formatter (claim C5). -/

/-- C5: `formatEventDateDisplay` renders the single full date when the end
date is absent or falls on the same calendar day as the start, renders the
en-dash range when the days differ, returns the raw start string unchanged
on a malformed date, and produces the two documented example strings. -/
theorem c5_format_event_date (s es : String) (st et : CivilDate)
    (hs : parseISODate s = some st) (he : parseISODate es = some et) :
    formatEventDateDisplay s none = fmtFullDate st ∧
    (st = et → formatEventDateDisplay s (some es) = fmtFullDate st) ∧
    (st ≠ et → formatEventDateDisplay s (some es) =
      fmtAbbrDayMonth st ++ " – " ++ fmtAbbrFull et) ∧
    (∀ s2 e2, parseISODate s2 = none → formatEventDateDisplay s2 e2 = s2) ∧
    formatEventDateDisplay "2024-03-15" (some "2024-03-15") = "Friday, Mar 15, 2024" ∧
    formatEventDateDisplay "2024-03-15" (some "2024-03-17") =
      "Fri, Mar 15 – Sun, Mar 17, 2024" := by
  have hne : es ≠ "" := by
    intro h
    subst h
    have hempty : parseISODate "" = none := rfl
    rw [hempty] at he
    exact Option.noConfusion he
  refine ⟨?_, ?_, ?_, ?_, by decide, by decide⟩
  · simp [formatEventDateDisplay, hs]
  · intro h
    subst h
    simp [formatEventDateDisplay, hs, he, hne]
  · intro h
    simp [formatEventDateDisplay, hs, he, hne, h]
  · intro s2 e2 h2
    simp [formatEventDateDisplay, h2]

/-- Witness for C5: the concrete single-date rendering. -/
theorem c5_format_event_date_witness :
    formatEventDateDisplay "2024-03-15" none = fmtFullDate ⟨2024, 3, 15⟩ :=
  (c5_format_event_date "2024-03-15" "2024-03-17" ⟨2024, 3, 15⟩ ⟨2024, 3, 17⟩
    rfl rfl).1

/-! Calendar deep link (claim C6). -/

/-- C6: the Google Calendar deep link never throws — it returns the encoded
URL on success and the sentinel `#` when the body throws — and for a
2024-03-15 one-day event its `dates` parameter is the exclusive span
`20240315/20240316`, whatever the host offset. -/
theorem c6_google_calendar_url (ev : Event) (o : Int) :
    (∀ ps, googleCalendarParams ev o = some ps →
      generateGoogleCalendarUrl ev o =
        "https://calendar.google.com/calendar/render?" ++ encodeParams ps) ∧
    (googleCalendarParams ev o = none → generateGoogleCalendarUrl ev o = "#") ∧
    (ev.start_date = "2024-03-15" → ev.end_date = some "2024-03-15" →
      ∃ ps, googleCalendarParams ev o = some ps ∧
        ps.lookup "dates" = some "20240315/20240316") := by
  refine ⟨?_, ?_, ?_⟩
  · intro ps h
    unfold generateGoogleCalendarUrl
    rw [h]
  · intro h
    unfold generateGoogleCalendarUrl
    rw [h]
  · intro h1 h2
    have hd : googleDatesParam ev o = some "20240315/20240316" := by
      unfold googleDatesParam
      rw [h1, h2]
      rw [show jsDateOfNullable (some "2024-03-15") = some 19797 from rfl]
      show some (stripDashes "2024-03-15" ++ "/" ++
        yyyymmdd (jsIsoDayAfterSetDate 19797 o)) = some "20240315/20240316"
      rw [jsIsoDayAfterSetDate_eq]
      rfl
    exact ⟨[("action", "TEMPLATE"), ("text", ev.name), ("dates", "20240315/20240316"),
      ("details", googleDetails ev), ("location", ev.location.getD ""),
      ("sprop", "website:youth-sports-calendar")],
      by unfold googleCalendarParams; rw [hd], by rfl⟩

/-- Witness for C6: the populated one-day event yields the documented dates
parameter under a negative host offset, and the event with the unparseable
end date yields the sentinel link. -/
theorem c6_google_calendar_url_witness :
    (∃ ps, googleCalendarParams evCup (-300) = some ps ∧
      ps.lookup "dates" = some "20240315/20240316") ∧
    generateGoogleCalendarUrl evBadEnd 0 = "#" :=
  ⟨(c6_google_calendar_url evCup (-300)).2.2 rfl rfl,
    (c6_google_calendar_url evBadEnd 0).2.1 rfl⟩

/-! Bulk export (claim C7). -/

/-- A single-event serialization succeeds exactly when its date triples do. -/
theorem generateICS_ok_iff (ev : Event) (o : Int) :
    exceptOk (generateICSContent ev o) = (icsDateTriples ev o).isSome := by
  unfold generateICSContent
  cases h : icsDateTriples ev o with
  | none => rfl
  | some p =>
    obtain ⟨s, e⟩ := p
    rfl

/-- The bulk fold appends exactly the blocks of the successfully serialized
events, in input order, and counts them. -/
theorem bulkFold (o : Int) (events : List Event) :
    ∀ (pre : String) (k : Nat),
      events.foldl (bulkStep o) (pre, k) =
        (pre ++ concatStrings ((events.filter
            (fun e => exceptOk (generateICSContent e o))).map
            (fun e => icsSerializedBlock e o ++ "\n")),
          k + (events.filter (fun e => exceptOk (generateICSContent e o))).length) := by
  induction events with
  | nil =>
    intro pre k
    show (pre, k) = (pre ++ concatStrings [], k + 0)
    rw [show concatStrings [] = "" from rfl, String.append_empty]
    rfl
  | cons e es ih =>
    intro pre k
    rw [List.foldl_cons]
    cases h : icsDateTriples e o with
    | none =>
      have hp : exceptOk (generateICSContent e o) = false := by
        rw [generateICS_ok_iff, h]
        rfl
      have hstep : bulkStep o (pre, k) e = (pre, k) := by
        unfold bulkStep
        rw [h]
      have hfilter : (e :: es).filter (fun x => exceptOk (generateICSContent x o)) =
          es.filter (fun x => exceptOk (generateICSContent x o)) := by
        simp [List.filter_cons, hp]
      rw [hstep, ih, hfilter]
    | some p =>
      obtain ⟨s, t⟩ := p
      have hp : exceptOk (generateICSContent e o) = true := by
        rw [generateICS_ok_iff, h]
        rfl
      have hstep : bulkStep o (pre, k) e =
          (pre ++ icsVEventBlock e s t ++ "\n", k + 1) := by
        unfold bulkStep
        rw [h]
      have hfilter : (e :: es).filter (fun x => exceptOk (generateICSContent x o)) =
          e :: es.filter (fun x => exceptOk (generateICSContent x o)) := by
        simp [List.filter_cons, hp]
      have hblock : icsSerializedBlock e o = icsVEventBlock e s t := by
        unfold icsSerializedBlock
        rw [h]
      rw [hstep, ih, hfilter]
      simp only [List.map_cons, concatStrings, hblock, Prod.mk.injEq]
      constructor
      · simp [String.append_assoc]
      · simp only [List.length_cons]
        omega

/-- C7: the bulk export builds the header, then exactly the serialized
blocks of the events whose serialization succeeds, in input order, closed by
the footer; the reported count is the number of successes; and a zero count
yields the distinct no-valid-events outcome instead of a file. -/
theorem c7_bulk_export (events : List Event) (o : Int) :
    ((events.filter (fun e => exceptOk (generateICSContent e o))).length = 0 →
      downloadMultipleEventsICS events o = BulkExportResult.noValidEvents) ∧
    (0 < (events.filter (fun e => exceptOk (generateICSContent e o))).length →
      downloadMultipleEventsICS events o = BulkExportResult.file
        (bulkHeader ++ concatStrings ((events.filter
            (fun e => exceptOk (generateICSContent e o))).map
            (fun e => icsSerializedBlock e o ++ "\n")) ++ "END:VCALENDAR")
        (events.filter (fun e => exceptOk (generateICSContent e o))).length) := by
  have hf := bulkFold o events bulkHeader 0
  constructor
  · intro h0
    unfold downloadMultipleEventsICS
    rw [hf]
    simp [h0]
  · intro hpos
    unfold downloadMultipleEventsICS
    rw [hf]
    simp only []
    rw [if_neg (by omega)]
    rw [Nat.zero_add]

/-- Witness for C7: over the good event and the event with the unparseable
end date, the file holds exactly the good block and reports one success;
over the bad event alone the distinct no-valid-events outcome fires. -/
theorem c7_bulk_export_witness :
    downloadMultipleEventsICS [evCup, evBadEnd] 0 = BulkExportResult.file
      (bulkHeader ++ concatStrings (([evCup, evBadEnd].filter
          (fun e => exceptOk (generateICSContent e 0))).map
          (fun e => icsSerializedBlock e 0 ++ "\n")) ++ "END:VCALENDAR")
      ([evCup, evBadEnd].filter (fun e => exceptOk (generateICSContent e 0))).length ∧
    downloadMultipleEventsICS [evBadEnd] 0 = BulkExportResult.noValidEvents :=
  ⟨(c7_bulk_export [evCup, evBadEnd] 0).2 (by decide),
   (c7_bulk_export [evBadEnd] 0).1 (by decide)⟩

/-! Display normalization (claim C8). -/

/-- C8 counterexample: a whitespace-only value slips past the pre-trim empty
check, trims to the empty string, is not in the placeholder list, and is
returned as the empty string — not replaced by the default. -/
theorem c8_display_value_counterexample :
    getDisplayValue (some " ") "N/A" = "" ∧ ("" : String) ≠ "N/A" := by
  constructor
  · rfl
  · decide

/-- C8 (amended): `getDisplayValue` returns the default for `null`,
`undefined`, the exactly-empty string, and any value whose trimmed
lower-casing is a listed placeholder; every other value — including
whitespace-only strings, which trim to the empty string — is returned
trimmed. -/
theorem c8_get_display_value (d : String) :
    getDisplayValue none d = d ∧
    getDisplayValue (some "") d = d ∧
    (∀ s, s ≠ "" → emptyValues.contains (jsToLower (jsTrim s)) = true →
      getDisplayValue (some s) d = d) ∧
    (∀ s, s ≠ "" → emptyValues.contains (jsToLower (jsTrim s)) = false →
      getDisplayValue (some s) d = jsTrim s) := by
  refine ⟨rfl, rfl, ?_, ?_⟩
  · intro s hs hc
    have hm : jsToLower (jsTrim s) ∈ emptyValues := by simpa using hc
    simp [getDisplayValue, hs, hm]
  · intro s hs hc
    have hm : jsToLower (jsTrim s) ∉ emptyValues := by simpa using hc
    simp [getDisplayValue, hs, hm]

/-- Witness for C8: a padded placeholder maps to the default, a padded
ordinary value maps to its trimmed form. -/
theorem c8_get_display_value_witness :
    getDisplayValue (some "  n/a ") "N/A" = "N/A" ∧
    getDisplayValue (some " Springfield ") "N/A" = jsTrim " Springfield " :=
  ⟨(c8_get_display_value "N/A").2.2.1 "  n/a " (by decide) (by decide),
   (c8_get_display_value "N/A").2.2.2 " Springfield " (by decide) (by decide)⟩

/-! Website validation (claim C9). -/

/-- C9: the validator rejects the empty string, the placeholder `N/A`, a
javascript scheme link and a localhost link, and accepts a well-formed
external https URL. -/
theorem c9_website_validation :
    isValidExternalWebsite "" = false ∧
    isValidExternalWebsite "N/A" = false ∧
    isValidExternalWebsite "javascript:alert(1)" = false ∧
    isValidExternalWebsite "http://localhost/x" = false ∧
    isValidExternalWebsite "https://example.org/event" = true := by
  decide

/-! Single-event export under a western host timezone (claim C10). -/

/-- C10: for every event whose stored dates parse and every host timezone
with a strictly negative UTC offset, the serialized start triple is the
calendar day before the stored start date, and the end triple is the stored
end date itself (not end plus one). -/
theorem c10_ics_negative_offset (ev : Event) (es : String) (o : Int) (st et : CivilDate)
    (hend : ev.end_date = some es)
    (hs : parseISODate ev.start_date = some st)
    (he : parseISODate es = some et)
    (h1 : -1440 < o) (h2 : o < 0) :
    icsDateTriples ev o = some (predCivil st, et) := by
  have hvs := parseISODate_valid hs
  have hve := parseISODate_valid he
  have hns : jsDateNum ev.start_date = some (daysFromCivil st) := by
    unfold jsDateNum
    rw [hs]
    rfl
  have hne : jsDateOfNullable ev.end_date = some (daysFromCivil et) := by
    rw [hend]
    show Option.map daysFromCivil (parseISODate es) = some (daysFromCivil et)
    rw [he]
    rfl
  unfold icsDateTriples
  rw [hns, hne]
  show some (civilFromDays (jsLocalDay (daysFromCivil st) o),
    civilFromDays (jsNextLocalDay (jsLocalDay (daysFromCivil et) o))) =
    some (predCivil st, et)
  rw [jsLocalDay_neg _ _ h1 h2, jsLocalDay_neg _ _ h1 h2]
  rw [jsNextLocalDay_eq]
  rw [show daysFromCivil et - 1 + 1 = daysFromCivil et by ring]
  rw [civilFromDays_daysFromCivil et hve, civilFromDays_sub_one st hvs]

/-- Witness for C10: the one-day 2024-03-15 event serialized at offset
UTC-5 starts on the previous civil day and ends on the stored day. -/
theorem c10_ics_negative_offset_witness :
    icsDateTriples evCup (-300) = some (predCivil ⟨2024, 3, 15⟩, ⟨2024, 3, 15⟩) :=
  c10_ics_negative_offset evCup "2024-03-15" (-300) ⟨2024, 3, 15⟩ ⟨2024, 3, 15⟩
    rfl rfl rfl (by decide) (by decide)
